import Mathlib

/-!
# Verification of the pgmob change-tracking / reconciliation core

Shallow embedding of the pgmob object model (`pgmob/objects/tables.py`,
`pgmob/objects/mixins.py`, `pgmob/util.py`) together with the parts of the
`pgmob.objects.generic` machinery that the in-repository callers rely on.
Python methods become Lean functions; mutation of an object becomes a
function returning the updated record; each operation additionally returns
the list of statements it sent to the remote cluster, so "no remote I/O"
claims are expressible.  Statements (`pgmob.sql.SQL`/`Composed`) are
modelled structurally as token lists; equality is structural, matching the
structural `__eq__` of the SQL objects.
-/

namespace Pgmob

/-! ## SQL statements (`pgmob.sql`)

A composed statement is a sequence of typed parts: raw template fragments,
`Identifier` parts, and `Literal` parts.  `SQL("...").format(...)` is
modelled by writing out the resulting part sequence directly. -/

/-- One typed part of a composed SQL statement. -/
inductive SQLTok where
  | raw (s : String)
  | ident (s : String)
  | lit (s : String)
deriving DecidableEq, Repr

/-- A composed statement: a sequence of typed parts (structural equality,
like `pgmob.sql.Composed.__eq__`). -/
abbrev Stmt := List SQLTok

/-- A pending change record (`generic._SQLChange`): the deferred statement
for one edited attribute.  The owning-object back reference of the Python
class is implicit (the record lives inside its owner's change map). -/
structure SQLChange where
  sql : Stmt
deriving DecidableEq, Repr

/-! ## Python `dict` as an insertion-ordered association list

`obj._changes` is a Python `dict` keyed by attribute name: assigning to an
existing key replaces the value in place (keeping its position); assigning
a fresh key appends. -/

/-- Python-`dict` assignment `m[k] = v`: replace in place if the key is
present, append otherwise. -/
def dictInsert {α : Type} (m : List (String × α)) (k : String) (v : α) :
    List (String × α) :=
  if m.any (fun p => p.1 = k) then
    m.map (fun p => if p.1 = k then (k, v) else p)
  else m ++ [(k, v)]

/-- Python-`dict` lookup `m.get(k)`. -/
def dictGet {α : Type} (m : List (String × α)) (k : String) : Option α :=
  (m.find? (fun p => p.1 = k)).map (·.2)

/-- The keys of the change map are distinct (the `dict` invariant). -/
def nodupKeys {α : Type} (m : List (String × α)) : Prop :=
  (m.map Prod.fst).Nodup

instance {α : Type} (m : List (String × α)) : Decidable (nodupKeys m) := by
  unfold nodupKeys; infer_instance

/-! ## Errors (`pgmob.errors`, abstracted per the spec's taxonomy) -/

/-- Modelled from the spec: the `pgmob.errors` module is not under `src/`.
The spec's error taxonomy names `NotFoundError` (remote row expected by
identity does not exist, raised during refresh) and `MappingError` (row
shape/content does not match the mapper). -/
inductive PgError where
  | notFound
  | mappingError
deriving DecidableEq, Repr

/-! ## Table (`pgmob/objects/tables.py`, class `Table`) -/

/-- The in-memory mirror of one remote table.  Mutable Python attributes
become record fields; `changes` is the entity's pending-change map
(`self._changes`, a Python dict).  `db_schema`/`db_name` are the
schema-qualified identity by which the object is currently known on the
remote server, rendered by `_sql_fqn()` (modelled from the spec: the
generic `_sql_fqn` helper is not under `src/`; it renders the stable
remote identity, set at construction and on refresh — `test_tables.py`
`test_alter` pins that every deferred statement carries the identity from
before the local edits). -/
structure Table where
  name : String
  schema : String
  owner : Option String
  tablespace : Option String
  row_security : Bool
  oid : Option Nat
  db_name : String
  db_schema : String
  changes : List (String × SQLChange)
deriving DecidableEq, Repr

/-- `Table.__init__`: stores the constructor arguments; tablespace starts
`None`, row security starts `False`, and no changes are pending. -/
def Table.init (name : String) (schema : String := "public")
    (owner : Option String := none) (oid : Option Nat := none) : Table :=
  { name := name, schema := schema, owner := owner, tablespace := none,
    row_security := false, oid := oid, db_name := name, db_schema := schema,
    changes := [] }

/-- `Table._sql_fqn()`: the schema-qualified identifier pair joined by a
dot, built from the stable remote identity. -/
def Table.sqlFqn (t : Table) : Stmt :=
  [SQLTok.ident t.db_schema, SQLTok.raw ".", SQLTok.ident t.db_name]

/-- The statement built by the `Table.tablespace` setter:
`ALTER TABLE {fqn} SET TABLESPACE {tablespace}`. -/
def tablespaceStmt (t : Table) (value : String) : Stmt :=
  SQLTok.raw "ALTER TABLE " :: t.sqlFqn ++
    [SQLTok.raw " SET TABLESPACE ", SQLTok.ident value]

/-- `Table.tablespace` setter: if the new value differs from the current
in-memory value, record a change keyed `"tablespace"` and assign the
private field; otherwise do nothing.  The second component is the list of
statements sent to the cluster during the call (none: the setter body
contains no `execute`). -/
def Table.setTablespace (t : Table) (value : String) : Table × List Stmt :=
  if t.tablespace ≠ some value then
    ({ t with
        changes := dictInsert t.changes "tablespace" ⟨tablespaceStmt t value⟩,
        tablespace := some value }, [])
  else (t, [])

/-- The statement built by the `Table.row_security` setter:
`ALTER TABLE {fqn} ENABLE|DISABLE ROW LEVEL SECURITY`. -/
def rowSecurityStmt (t : Table) (value : Bool) : Stmt :=
  SQLTok.raw "ALTER TABLE " :: t.sqlFqn ++
    [SQLTok.raw ((if value then " ENABLE" else " DISABLE") ++
      " ROW LEVEL SECURITY")]

/-- `Table.row_security` setter. -/
def Table.setRowSecurity (t : Table) (value : Bool) : Table × List Stmt :=
  if t.row_security ≠ value then
    ({ t with
        changes := dictInsert t.changes "row_security" ⟨rowSecurityStmt t value⟩,
        row_security := value }, [])
  else (t, [])

/-- The per-attribute `ALTER TABLE` templates used by
`generic._set_ephemeral_attr` for `owner`/`schema`/`name`.  Modelled from
the spec (the generic module is not under `src/`): a fixed mapping from
attribute name to a parameterized ALTER-style template; the exact
statements are pinned by `test_tables.py::TestTable::test_alter`
(`OWNER TO`, `SET SCHEMA`, `RENAME TO`). -/
def ownerStmt (t : Table) (value : String) : Stmt :=
  SQLTok.raw "ALTER TABLE " :: t.sqlFqn ++
    [SQLTok.raw " OWNER TO ", SQLTok.ident value]

/-- `ALTER TABLE {fqn} SET SCHEMA {value}` (see `ownerStmt`). -/
def schemaStmt (t : Table) (value : String) : Stmt :=
  SQLTok.raw "ALTER TABLE " :: t.sqlFqn ++
    [SQLTok.raw " SET SCHEMA ", SQLTok.ident value]

/-- `ALTER TABLE {fqn} RENAME TO {value}` (see `ownerStmt`). -/
def renameStmt (t : Table) (value : String) : Stmt :=
  SQLTok.raw "ALTER TABLE " :: t.sqlFqn ++
    [SQLTok.raw " RENAME TO ", SQLTok.ident value]

/-- Modelled from the spec: `generic._set_ephemeral_attr` for the `owner`
attribute — "if `value == current`, no-op (no Change Record); else build
the Change Record via a per-attribute statement template, store keyed by
name, then set the in-memory value" (spec §4.2); no remote I/O on set. -/
def Table.setOwner (t : Table) (value : String) : Table × List Stmt :=
  if t.owner ≠ some value then
    ({ t with
        changes := dictInsert t.changes "owner" ⟨ownerStmt t value⟩,
        owner := some value }, [])
  else (t, [])

/-- Modelled from the spec: `generic._set_ephemeral_attr` for `schema`
(see `Table.setOwner`). -/
def Table.setSchema (t : Table) (value : String) : Table × List Stmt :=
  if t.schema ≠ value then
    ({ t with
        changes := dictInsert t.changes "schema" ⟨schemaStmt t value⟩,
        schema := value }, [])
  else (t, [])

/-- Modelled from the spec: `generic._set_ephemeral_attr` for `name`
(see `Table.setOwner`). -/
def Table.setName (t : Table) (value : String) : Table × List Stmt :=
  if t.name ≠ value then
    ({ t with
        changes := dictInsert t.changes "name" ⟨renameStmt t value⟩,
        name := value }, [])
  else (t, [])

/-! ## Column (`pgmob/objects/tables.py`, class `Column`) -/

/-- `Identity` enum (`tables.py`): generated-identity options, decoded
from single-character catalog codes. -/
inductive Identity where
  | always
  | default
  | notGenerated
deriving DecidableEq, Repr

/-- `Identity(value)`: decode a catalog code (`"a"`, `"d"`, `""`). -/
def Identity.ofCode : String → Option Identity
  | "a" => some .always
  | "d" => some .default
  | "" => some .notGenerated
  | _ => none

/-- `GeneratedColumn` enum (`tables.py`). -/
inductive GeneratedColumn where
  | stored
  | notGenerated
deriving DecidableEq, Repr

/-- `GeneratedColumn(value)`: decode a catalog code (`"s"`, `""`). -/
def GeneratedColumn.ofCode : String → Option GeneratedColumn
  | "s" => some .stored
  | "" => some .notGenerated
  | _ => none

/-- The in-memory mirror of one table column (`Column.__init__`).
`db_name` is the stable remote identity rendered by the column's
`_sql_fqn()` (see `Table.db_name`); `table` is the owning table. -/
structure Column where
  name : String
  table : Table
  type : String
  stat_target : Int
  number : Option Int
  is_array : Bool
  type_mod : Option Int
  nullable : Bool
  has_default : Bool
  identity : Identity
  generated : GeneratedColumn
  collation : Option String
  expression : Option String
  db_name : String
  changes : List (String × SQLChange)
deriving DecidableEq, Repr

/-- `Column.__init__` with the source's defaults. -/
def Column.init (name : String) (table : Table) (type : String)
    (stat_target : Int := -1) (number : Option Int := none)
    (is_array : Bool := false) (type_mod : Option Int := none)
    (nullable : Bool := true) (has_default : Bool := false)
    (identity : Identity := .notGenerated)
    (generated : GeneratedColumn := .notGenerated)
    (collation : Option String := none) (expression : Option String := none) :
    Column :=
  { name := name, table := table, type := type, stat_target := stat_target,
    number := number, is_array := is_array, type_mod := type_mod,
    nullable := nullable, has_default := has_default, identity := identity,
    generated := generated, collation := collation, expression := expression,
    db_name := name, changes := [] }

/-- `Column._ephemeral`: a column with no attribute number is not yet
known remotely. -/
def Column.ephemeral (c : Column) : Bool := c.number.isNone

/-- `_set_column_attr` statement for `name`:
`ALTER TABLE {table} RENAME COLUMN {name} TO {value}`. -/
def columnRenameStmt (c : Column) (value : String) : Stmt :=
  SQLTok.raw "ALTER TABLE " :: c.table.sqlFqn ++
    [SQLTok.raw " RENAME COLUMN ", SQLTok.ident c.db_name,
     SQLTok.raw " TO ", SQLTok.ident value]

/-- `_set_column_attr` statement for `stat_target`:
`ALTER TABLE {table} ALTER COLUMN {name} SET STATISTICS {stats}` with the
value bound as a `Literal`. -/
def columnStatStmt (c : Column) (value : Int) : Stmt :=
  SQLTok.raw "ALTER TABLE " :: c.table.sqlFqn ++
    [SQLTok.raw " ALTER COLUMN ", SQLTok.ident c.db_name,
     SQLTok.raw " SET STATISTICS ", SQLTok.lit (toString value)]

/-- `_set_column_attr` statement for `nullable`:
`ALTER TABLE {table} ALTER COLUMN {name} SET|DROP NOT NULL`
(`SET` when the new value is false, `DROP` when it is true). -/
def columnNullableStmt (c : Column) (value : Bool) : Stmt :=
  SQLTok.raw "ALTER TABLE " :: c.table.sqlFqn ++
    [SQLTok.raw " ALTER COLUMN ", SQLTok.ident c.db_name,
     SQLTok.raw ((if value then " DROP" else " SET") ++ " NOT NULL")]

/-- `_set_column_attr(obj, "name", value)`: compare against the current
private field; when different, store the change keyed `"name"` and assign
the field.  No statement is executed during the call. -/
def Column.setName (c : Column) (value : String) : Column × List Stmt :=
  if c.name ≠ value then
    ({ c with
        changes := dictInsert c.changes "name" ⟨columnRenameStmt c value⟩,
        name := value }, [])
  else (c, [])

/-- `_set_column_attr(obj, "stat_target", value)` (see `Column.setName`). -/
def Column.setStatTarget (c : Column) (value : Int) : Column × List Stmt :=
  if c.stat_target ≠ value then
    ({ c with
        changes := dictInsert c.changes "stat_target" ⟨columnStatStmt c value⟩,
        stat_target := value }, [])
  else (c, [])

/-- `_set_column_attr(obj, "nullable", value)` (see `Column.setName`). -/
def Column.setNullable (c : Column) (value : Bool) : Column × List Stmt :=
  if c.nullable ≠ value then
    ({ c with
        changes := dictInsert c.changes "nullable" ⟨columnNullableStmt c value⟩,
        nullable := value }, [])
  else (c, [])

/-! ## Refresh protocol (`Table.refresh`, `Column.refresh`) -/

/-- Modelled from the spec: the SQL text of the catalog queries is treated
as "an opaque statement generator keyed by object kind" (`util.get_sql`
reads it from files that are not under `src/`). -/
def catalogQuery (kind : String) : Stmt := [SQLTok.raw kind]

/-- One row of the `get_table` catalog query, in the field order fixed by
`_TableMapper.attributes` (`name`, `owner`, `schema`, `tablespace`,
`row_security`, `oid`). -/
structure TableRow where
  name : String
  owner : String
  schema : String
  tablespace : Option String
  row_security : Bool
  oid : Nat
deriving DecidableEq, Repr

/-- `_TableMapper.map`: overwrite every mapped attribute of the entity
from the row (a full overwrite, not a merge), and re-baseline the stable
remote identity used by `_sql_fqn`.  The pending-change map is not touched
here (it was cleared by `refresh` before mapping). -/
def tableMap (row : TableRow) (t : Table) : Table :=
  { t with
      name := row.name, owner := some row.owner, schema := row.schema,
      tablespace := row.tablespace, row_security := row.row_security,
      oid := some row.oid, db_name := row.name, db_schema := row.schema }

/-- Outcome of `Table.refresh`: the post-call object state, the raised
error if any, and the queries sent to the cluster. -/
structure TableRefresh where
  table : Table
  error : Option PgError
  sent : List Stmt
deriving DecidableEq, Repr

/-- Modelled from the spec: `generic._DynamicObject.refresh` (the
`super().refresh()` call at the top of `Table.refresh`) is not under
`src/`; per spec §4.4/§7 it resets the pending-change map, which therefore
happens before the remote query on every path.  An entity with no
identity (`oid is None`) is ephemeral (spec §3). -/
def Table.refresh (t : Table) (remote : Option TableRow) : TableRefresh :=
  let t1 := { t with changes := [] }
  if t1.oid.isNone then
    { table := t1, error := none, sent := [] }
  else
    let q := catalogQuery "get_table" ++ [SQLTok.raw " WHERE c.oid = %s"]
    match remote with
    | none => { table := t1, error := some .notFound, sent := [q] }
    | some row => { table := tableMap row t1, error := none, sent := [q] }

/-- One row of the `get_column` catalog query, in the field order fixed by
`_ColumnMapper.attributes`; `identity` and `generated` arrive as
single-character catalog codes. -/
structure ColumnRow where
  name : String
  type : String
  stat_target : Int
  number : Int
  is_array : Bool
  type_mod : Option Int
  nullable : Bool
  has_default : Bool
  identity : String
  generated : String
  collation : Option String
  expression : Option String
deriving DecidableEq, Repr

/-- `_BaseObjectMapper.map` for columns: overwrite the non-excluded
attributes (`exclude = ["identity", "generated"]`) from the row and
re-baseline the stable identity. -/
def columnMapBase (row : ColumnRow) (c : Column) : Column :=
  { c with
      name := row.name, type := row.type, stat_target := row.stat_target,
      number := some row.number, is_array := row.is_array,
      type_mod := row.type_mod, nullable := row.nullable,
      has_default := row.has_default, collation := row.collation,
      expression := row.expression, db_name := row.name }

/-- Outcome of `Column.refresh` (see `TableRefresh`). -/
structure ColumnRefresh where
  column : Column
  error : Option PgError
  sent : List Stmt
deriving DecidableEq, Repr

/-- `Column.refresh`: clear pending changes (`super().refresh()`, modelled
from the spec as for `Table.refresh`), then — unless the column is
ephemeral (`_number is None`, from `Column._ephemeral` in the source) —
query the catalog by the stable identity and remap; an empty result raises
the not-found error, and `_ColumnMapper.map` decodes the `identity` and
`generated` codes after the base overwrite (an unknown code raises). -/
def Column.refresh (c : Column) (remote : Option ColumnRow) : ColumnRefresh :=
  let c1 := { c with changes := [] }
  if c1.ephemeral then
    { column := c1, error := none, sent := [] }
  else
    let q := catalogQuery "get_column" ++ [SQLTok.raw " AND a.attnum = %s"]
    match remote with
    | none => { column := c1, error := some .notFound, sent := [q] }
    | some row =>
      let c2 := columnMapBase row c1
      match Identity.ofCode row.identity with
      | none => { column := c2, error := some .mappingError, sent := [q] }
      | some i =>
        match GeneratedColumn.ofCode row.generated with
        | none =>
          { column := { c2 with identity := i }, error := some .mappingError,
            sent := [q] }
        | some g =>
          { column := { c2 with identity := i, generated := g },
            error := none, sent := [q] }

/-! ## Reconciliation (`alter`) -/

/-- The canonical attribute order in which pending table changes are
applied: the declaration order of the property setters in `tables.py`,
which puts the rename last (after owner/schema/tablespace changes). -/
def alterOrder : List String :=
  ["tablespace", "row_security", "owner", "schema", "name"]

/-- Modelled from the spec: `generic._DynamicObject.alter` is not under
`src/`; per spec §4.3 it "orders pending Change Records deterministically
(declaration order of attributes …, e.g. rename must follow
owner/schema/tablespace changes)", executes them as one batch (one
`execute` per record, as pinned by `test_tables.py::TestTable::test_alter`)
and then clears the pending changes (the subsequent refresh is modelled
separately by `Table.refresh`). -/
def Table.alter (t : Table) : Table × List Stmt :=
  ({ t with changes := [] },
    alterOrder.filterMap (fun a => (dictGet t.changes a).map SQLChange.sql))

/-! ## TableCollection (`tables.py`, class `TableCollection`) -/

/-- The index key for a table: per the `TableCollection` docstring, tables
in the `public` schema are indexed by bare name, others by
`"schemaname.tablename"` (`generic._index`, not under `src/`, modelled
from the spec and that docstring). -/
def tableIndex (name schema : String) : String :=
  if schema = "public" then name else schema ++ "." ++ name

/-- Strip a literal character-list prefix, or fail. -/
def stripPrefixChars : List Char → List Char → Option (List Char)
  | [], rest => some rest
  | _ :: _, [] => none
  | p :: ps, c :: cs => if c = p then stripPrefixChars ps cs else none

/-- Modelled from the spec: collection key normalization applies
default-schema elision (`"public.tbl" ≡ "tbl"`, spec §4.5); the generic
collection lookup is not under `src/`. -/
def normalizeKey (k : String) : String :=
  match stripPrefixChars "public.".data k.data with
  | some rest => String.mk rest
  | none => k

/-- An iterable collection of tables indexed by composed key. -/
structure TableCollection where
  tables : List (String × Table)
deriving DecidableEq, Repr

/-- Membership test (`key in collection`) with key normalization. -/
def TableCollection.containsKey (c : TableCollection) (k : String) : Bool :=
  c.tables.any (fun p => p.1 = normalizeKey k)

/-- Lookup (`collection[key]`) with the same key normalization. -/
def TableCollection.getItem (c : TableCollection) (k : String) : Option Table :=
  (c.tables.find? (fun p => p.1 = normalizeKey k)).map (·.2)

/-- The table object built for one fetched row during collection refresh:
`mapper.map(Table(cluster=…, name=…, schema=…, parent=self, oid=…))`. -/
def tableFromRow (row : TableRow) : Table :=
  tableMap row (Table.init row.name row.schema none (some row.oid))

/-- `TableCollection.refresh` restated over the fetched rows: resets the
contents and stores, for each returned row, a freshly constructed and
mapped table under `self._index(name=…, schema=…)`. -/
def TableCollection.refreshFrom (rows : List TableRow) : TableCollection :=
  ⟨rows.foldl
    (fun acc row => dictInsert acc (tableIndex row.name row.schema)
      (tableFromRow row)) []⟩

/-! ## `util.get_sql`: versioned SQL template selection

`get_sql(name, version)` globs `{name}_*.sql` in the script directory,
sorts the file names (Python sorts strings by code point), and walks them,
remembering every file whose numeric suffix is `<= version.major`; the
default `{name}.sql` is used when no version is given or nothing matched.
The file list is passed in explicitly (the script directory is data, not
code). -/

/-- Code-point lexicographic order on character lists: the order Python
uses to sort the globbed file names. -/
def lexLe : List Char → List Char → Bool
  | [], _ => true
  | _ :: _, [] => false
  | a :: as, b :: bs =>
    if a.toNat < b.toNat then true
    else if b.toNat < a.toNat then false
    else lexLe as bs

/-- `lexLe` lifted to file names. -/
def strLe (a b : String) : Prop := lexLe a.data b.data = true

instance : DecidableRel strLe := fun a b => by
  unfold strLe; infer_instance

/-- Convert a run of decimal digit characters to the number it denotes
(`int(match[1])`). -/
def digitsToNat (l : List Char) : Nat :=
  l.foldl (fun acc c => acc * 10 + (c.toNat - 48)) 0

/-- The glob `{name}_*.sql`: the file name starts with `name_` and ends
with `.sql`. -/
def globMatch (name f : String) : Bool :=
  (stripPrefixChars (name ++ "_").data f.data).isSome &&
    (stripPrefixChars ".sql".data.reverse f.data.reverse).isSome

/-- The matcher `re.escape(name) + "_(\\d+)\\.sql"` applied with
`re.match`: after the literal `name_` prefix, a maximal nonempty digit run
captured as the version number, directly followed by `.sql`. -/
def parseSqlSuffix (name f : String) : Option Nat :=
  match stripPrefixChars (name ++ "_").data f.data with
  | none => none
  | some rest =>
    let digits := rest.takeWhile Char.isDigit
    let after := rest.dropWhile Char.isDigit
    if digits.isEmpty then none
    else if (stripPrefixChars ".sql".data after).isSome then
      some (digitsToNat digits)
    else none

/-- Whether the loop body updates `filename` for this file: the matcher
matched and `version.major >= int(match[1])`. -/
def qualifies (name : String) (major : Nat) (f : String) : Bool :=
  match parseSqlSuffix name f with
  | some v => v ≤ major
  | none => false

/-- `util.get_sql`, restated over the list of file names present in the
script directory: with a version, glob `{name}_*.sql`, sort, and keep the
last file whose suffix qualifies, starting from the default `{name}.sql`;
with no version, the default.  (Reading the chosen file's contents is the
opaque part, see `catalogQuery`.) -/
def get_sql (name : String) (version : Option Nat) (files : List String) :
    String :=
  match version with
  | none => name ++ ".sql"
  | some major =>
    let globbed := (files.filter (globMatch name)).insertionSort strLe
    globbed.foldl (fun acc f => if qualifies name major f then f else acc)
      (name ++ ".sql")

/-! ## `util.Version`

`Version.__new__` pre-checks that every dot-separated component of the
argument parses as a Python `int`; construction then proceeds through
`packaging.version.Version.__init__`, which parses the original string as
a PEP 440 version.  Character classes are modelled over ASCII (the Python
functions additionally accept some Unicode whitespace/digits). -/

/-- The whitespace characters stripped by Python's `int()` and tolerated
around a version by the `packaging` regex (ASCII fragment). -/
def isPySpace (c : Char) : Bool :=
  c = ' ' || c = '\t' || c = '\n' || c = '\r' ||
    c = Char.ofNat 11 || c = Char.ofNat 12

/-- Strip leading and trailing whitespace. -/
def pyStrip (l : List Char) : List Char :=
  ((l.dropWhile isPySpace).reverse.dropWhile isPySpace).reverse

/-- `str.split(".")`: split on every dot; adjacent dots and an empty
string yield empty components. -/
def splitDot : List Char → List (List Char)
  | [] => [[]]
  | c :: rest =>
    match splitDot rest with
    | [] => [[]]
    | g :: gs => if c = '.' then [] :: g :: gs else (c :: g) :: gs

/-- Join components with dots (inverse of `splitDot` for dot-free
components). -/
def joinDots : List (List Char) → List Char
  | [] => []
  | [c] => c
  | c :: rest => c ++ '.' :: joinDots rest

/-- After Python `int()` has consumed one digit, the rest of the token:
digits with single interior underscores. -/
def pyDigitsRest : List Char → Bool
  | [] => true
  | c :: rest =>
    if c = '_' then
      match rest with
      | c2 :: rest' => c2.isDigit && pyDigitsRest rest'
      | [] => false
    else c.isDigit && pyDigitsRest rest

/-- Whether Python's `int(x)` succeeds on the token `x`: optional
surrounding whitespace, an optional single sign, then a nonempty digit
run with single interior underscores. -/
def pyIntOk (l : List Char) : Bool :=
  let t := pyStrip l
  let t2 :=
    match t with
    | c :: rest => if c = '+' || c = '-' then rest else t
    | [] => t
  match t2 with
  | [] => false
  | c :: rest => c.isDigit && pyDigitsRest rest

/-- Modelled from the spec's external-interface treatment of third-party
code: `packaging.version.Version` (an external dependency, not part of
this repository) accepts a string iff it matches the anchored PEP 440
pattern with surrounding whitespace allowed; for plain dot-separated
numeric strings this is: after stripping whitespace, nonempty digit runs
separated by single dots.  Returns the release tuple. -/
def pep440Release (l : List Char) : Option (List Nat) :=
  let comps := splitDot (pyStrip l)
  if comps.all (fun c => !c.isEmpty && c.all Char.isDigit) then
    some (comps.map digitsToNat)
  else none

instance {ε α : Type} [DecidableEq ε] [DecidableEq α] :
    DecidableEq (Except ε α) := fun a b => by
  cases a with
  | error e =>
    cases b with
    | error f =>
      exact decidable_of_iff (e = f) ⟨fun h => by rw [h], fun h => by
        injection h⟩
    | ok y => exact isFalse (fun h => by injection h)
  | ok x =>
    cases b with
    | error f => exact isFalse (fun h => by injection h)
    | ok y =>
      exact decidable_of_iff (x = y) ⟨fun h => by rw [h], fun h => by
        injection h⟩

/-- A Python argument passed to `Version(...)`: a `str`, or any value
without a `split` method (e.g. `int`, `None`), whose `AttributeError` the
constructor converts to `ValueError`. -/
inductive PyArg where
  | pstr (s : String)
  | nonStr
deriving DecidableEq, Repr

/-- `util.Version.__new__` followed by `packaging`'s parse: the pre-check
`[int(x) for x in version.split(".")]` (a failure raises `ValueError`),
the dead `len(parts) == 0` guard (`split` always yields at least one
component), then the PEP 440 parse of the original string.  The value of
a successfully constructed version is its release tuple. -/
def Version_new (a : PyArg) : Except Unit (List Nat) :=
  match a with
  | .nonStr => .error ()
  | .pstr s =>
    let parts := splitDot s.data
    if parts.all pyIntOk then
      match pep440Release s.data with
      | some rel => .ok rel
      | none => .error ()
    else .error ()

/-- PEP 440 comparison key for the release: trailing zero components are
dropped, so missing trailing components compare as zero. -/
def releaseCanon (v : List Nat) : List Nat :=
  (v.reverse.dropWhile (· = 0)).reverse

/-- Equality of two constructed versions (`Version.__eq__` via the
PEP 440 comparison key). -/
def versionEq (v w : List Nat) : Bool :=
  releaseCanon v = releaseCanon w

/-! ## Sample data (used to instantiate theorems on concrete inputs) -/

/-- A concrete non-ephemeral table (the `tab1` fixture of `conftest.py`). -/
def sampleTable : Table :=
  { name := "tab1", schema := "pgmob1", owner := some "pgmob1",
    tablespace := some "pg_default", row_security := false,
    oid := some 45678, db_name := "tab1", db_schema := "pgmob1",
    changes := [] }

/-- A concrete non-ephemeral column on `sampleTable`. -/
def sampleColumn : Column :=
  Column.init "col1" sampleTable "integer" (-1) (some 1)

/-- A concrete `get_table` row for `sampleTable`. -/
def sampleRow : TableRow :=
  { name := "tab1", owner := "pgmob1", schema := "pgmob1",
    tablespace := some "pg_default", row_security := false, oid := 45678 }

/-- A concrete `get_column` row for `sampleColumn`. -/
def sampleColumnRow : ColumnRow :=
  { name := "col1", type := "integer", stat_target := -1, number := 1,
    is_array := false, type_mod := none, nullable := true,
    has_default := false, identity := "", generated := "",
    collation := none, expression := none }

/-! ## Lemmas about the Python-dict model -/

theorem dictInsert_map_fst_of_mem {α : Type} (m : List (String × α)) (k : String)
    (v : α) (h : m.any (fun p => p.1 = k) = true) :
    (dictInsert m k v).map Prod.fst = m.map Prod.fst := by
  unfold dictInsert
  rw [if_pos h, List.map_map]
  apply List.map_congr_left
  intro p _
  by_cases hp : p.1 = k
  · simp [hp]
  · simp [hp]

theorem dictInsert_nodupKeys {α : Type} (m : List (String × α)) (k : String)
    (v : α) (h : nodupKeys m) : nodupKeys (dictInsert m k v) := by
  unfold dictInsert
  by_cases hmem : m.any (fun p => p.1 = k) = true
  · rw [if_pos hmem]
    have : ((m.map (fun p => if p.1 = k then (k, v) else p)).map Prod.fst)
        = m.map Prod.fst := by
      have := dictInsert_map_fst_of_mem m k v hmem
      unfold dictInsert at this
      rwa [if_pos hmem] at this
    unfold nodupKeys
    rw [this]
    exact h
  · rw [if_neg hmem]
    unfold nodupKeys
    rw [List.map_append]
    simp only [List.map_cons, List.map_nil]
    rw [List.nodup_append]
    refine ⟨h, List.nodup_singleton k, ?_⟩
    intro a ha hk
    simp only [List.mem_singleton] at hk
    subst hk
    rw [List.any_eq_true] at hmem
    apply hmem
    rw [List.mem_map] at ha
    obtain ⟨p, hp, hpk⟩ := ha
    exact ⟨p, hp, by simp [hpk]⟩

/-- After a `dict` assignment to key `k` on a map with distinct keys, the
entries at key `k` are exactly the single new one. -/
theorem dictInsert_filter {α : Type} (m : List (String × α)) (k : String)
    (v : α) (h : nodupKeys m) :
    (dictInsert m k v).filter (fun p => p.1 = k) = [(k, v)] := by
  unfold dictInsert
  by_cases hmem : m.any (fun p => p.1 = k) = true
  · rw [if_pos hmem]
    rw [List.any_eq_true] at hmem
    obtain ⟨q, hq, hqk⟩ := hmem
    simp only [decide_eq_true_eq] at hqk
    induction m with
    | nil => cases hq
    | cons p ps ih =>
      unfold nodupKeys at h
      simp only [List.map_cons, List.nodup_cons] at h
      by_cases hp : p.1 = k
      · have hnone : ∀ r ∈ ps, ¬ (r.1 = k) := by
          intro r hr hrk
          apply h.1
          rw [hp, ← hrk]
          exact List.mem_map_of_mem Prod.fst hr
        have hmap : ps.map (fun p => if p.1 = k then (k, v) else p) = ps.map id := by
          apply List.map_congr_left
          intro r hr
          simp [if_neg (hnone r hr)]
        have hfil : ps.filter (fun p => decide (p.1 = k)) = [] := by
          rw [List.filter_eq_nil_iff]
          intro r hr
          simp only [decide_eq_true_eq]
          exact hnone r hr
        simp [List.filter_cons, hp, hmap, List.map_id, hfil]
      · have hq' : q ∈ ps := by
          cases List.mem_cons.mp hq with
          | inl hh => exact absurd (hh ▸ hqk) hp
          | inr hh => exact hh
        have := ih h.2 hq'
        simp only [List.map_cons, if_neg hp, List.filter_cons]
        simpa [hp] using this
  · rw [if_neg hmem]
    rw [List.filter_append]
    have : m.filter (fun p => decide (p.1 = k)) = [] := by
      rw [List.filter_eq_nil_iff]
      intro r hr hrk
      apply hmem
      rw [List.any_eq_true]
      exact ⟨r, hr, hrk⟩
    simp [this]

theorem find?_map_replace {α : Type} (k : String) (v : α) :
    ∀ (m : List (String × α)), m.any (fun p => p.1 = k) = true →
      (m.map (fun p => if p.1 = k then (k, v) else p)).find?
        (fun p => p.1 = k) = some (k, v) := by
  intro m hmem
  induction m with
  | nil => simp at hmem
  | cons p ps ih =>
    by_cases hp : p.1 = k
    · simp [hp]
    · have hps : ps.any (fun p => p.1 = k) = true := by
        simpa [hp] using hmem
      simpa [hp] using ih hps

/-- Looking up the just-assigned key returns the just-assigned value. -/
theorem dictGet_dictInsert_self {α : Type} (m : List (String × α))
    (k : String) (v : α) : dictGet (dictInsert m k v) k = some v := by
  unfold dictGet dictInsert
  by_cases hmem : m.any (fun p => p.1 = k) = true
  · rw [if_pos hmem, find?_map_replace k v m hmem]
    rfl
  · rw [if_neg hmem]
    have hnone : m.find? (fun p => decide (p.1 = k)) = none := by
      rw [List.find?_eq_none]
      intro p hp hpk
      apply hmem
      rw [List.any_eq_true]
      exact ⟨p, hp, hpk⟩
    rw [List.find?_append, hnone]
    simp

/-! ## Lemmas about the lexicographic order -/

theorem lexLe_refl (l : List Char) : lexLe l l = true := by
  induction l with
  | nil => rfl
  | cons a as ih => simp [lexLe, ih]

theorem lexLe_total (l₁ l₂ : List Char) :
    lexLe l₁ l₂ = true ∨ lexLe l₂ l₁ = true := by
  induction l₁ generalizing l₂ with
  | nil => left; rfl
  | cons a as ih =>
    cases l₂ with
    | nil => right; rfl
    | cons b bs =>
      rcases Nat.lt_trichotomy a.toNat b.toNat with h | h | h
      · left; simp [lexLe, h]
      · rcases ih bs with hh | hh
        · left; simp [lexLe, h, hh]
        · right; simp [lexLe, h, hh]
      · right; simp [lexLe, h, Nat.lt_asymm h]

theorem lexLe_trans {l₁ l₂ l₃ : List Char} (h₁ : lexLe l₁ l₂ = true)
    (h₂ : lexLe l₂ l₃ = true) : lexLe l₁ l₃ = true := by
  induction l₁ generalizing l₂ l₃ with
  | nil => rfl
  | cons a as ih =>
    cases l₂ with
    | nil => simp [lexLe] at h₁
    | cons b bs =>
      cases l₃ with
      | nil => simp [lexLe] at h₂
      | cons c cs =>
        simp only [lexLe] at h₁ h₂ ⊢
        rcases Nat.lt_trichotomy a.toNat b.toNat with hab | hab | hab
        · rcases Nat.lt_trichotomy b.toNat c.toNat with hbc | hbc | hbc
          · simp [Nat.lt_trans hab hbc]
          · simp [hbc ▸ hab]
          · simp [hbc, Nat.lt_asymm hbc] at h₂
        · rcases Nat.lt_trichotomy b.toNat c.toNat with hbc | hbc | hbc
          · simp [hab ▸ hbc]
          · have hac : a.toNat = c.toNat := hab.trans hbc
            simp only [hab, hbc, Nat.lt_irrefl, if_false] at h₁ h₂
            simp [hac, Nat.lt_irrefl, ih h₁ h₂]
          · simp [hbc, Nat.lt_asymm hbc] at h₂
        · simp [hab, Nat.lt_asymm hab] at h₁

instance : IsTotal String strLe :=
  ⟨fun a b => lexLe_total a.data b.data⟩

instance : IsTrans String strLe :=
  ⟨fun _ _ _ h₁ h₂ => lexLe_trans h₁ h₂⟩


/-! ## C1 — setters update locally, without remote I/O -/

/-- C1: for every embedded entity (table, column) and every tracked
attribute, setting the attribute to a new value updates the in-memory
value immediately (a subsequent get returns the new value), sends no
statement to the cluster, and only records a pending change record keyed
by the attribute name. -/
theorem set_updates_locally_without_remote_io
    (t : Table) (c : Column) (vts vow vsc vnm cnm : String)
    (vrs cnl : Bool) (cst : Int)
    (hts : t.tablespace ≠ some vts) (hrs : t.row_security ≠ vrs)
    (how : t.owner ≠ some vow) (hsc : t.schema ≠ vsc) (hnm : t.name ≠ vnm)
    (hcn : c.name ≠ cnm) (hcs : c.stat_target ≠ cst)
    (hcl : c.nullable ≠ cnl) :
    ((t.setTablespace vts).1.tablespace = some vts ∧
      (t.setTablespace vts).2 = [] ∧
      dictGet (t.setTablespace vts).1.changes "tablespace"
        = some ⟨tablespaceStmt t vts⟩) ∧
    ((t.setRowSecurity vrs).1.row_security = vrs ∧
      (t.setRowSecurity vrs).2 = [] ∧
      dictGet (t.setRowSecurity vrs).1.changes "row_security"
        = some ⟨rowSecurityStmt t vrs⟩) ∧
    ((t.setOwner vow).1.owner = some vow ∧
      (t.setOwner vow).2 = [] ∧
      dictGet (t.setOwner vow).1.changes "owner" = some ⟨ownerStmt t vow⟩) ∧
    ((t.setSchema vsc).1.schema = vsc ∧
      (t.setSchema vsc).2 = [] ∧
      dictGet (t.setSchema vsc).1.changes "schema" = some ⟨schemaStmt t vsc⟩) ∧
    ((t.setName vnm).1.name = vnm ∧
      (t.setName vnm).2 = [] ∧
      dictGet (t.setName vnm).1.changes "name" = some ⟨renameStmt t vnm⟩) ∧
    ((c.setName cnm).1.name = cnm ∧
      (c.setName cnm).2 = [] ∧
      dictGet (c.setName cnm).1.changes "name"
        = some ⟨columnRenameStmt c cnm⟩) ∧
    ((c.setStatTarget cst).1.stat_target = cst ∧
      (c.setStatTarget cst).2 = [] ∧
      dictGet (c.setStatTarget cst).1.changes "stat_target"
        = some ⟨columnStatStmt c cst⟩) ∧
    ((c.setNullable cnl).1.nullable = cnl ∧
      (c.setNullable cnl).2 = [] ∧
      dictGet (c.setNullable cnl).1.changes "nullable"
        = some ⟨columnNullableStmt c cnl⟩) := by
  refine ⟨?_, ?_, ?_, ?_, ?_, ?_, ?_, ?_⟩
  · rw [Table.setTablespace, if_pos hts]
    exact ⟨rfl, rfl, dictGet_dictInsert_self ..⟩
  · rw [Table.setRowSecurity, if_pos hrs]
    exact ⟨rfl, rfl, dictGet_dictInsert_self ..⟩
  · rw [Table.setOwner, if_pos how]
    exact ⟨rfl, rfl, dictGet_dictInsert_self ..⟩
  · rw [Table.setSchema, if_pos hsc]
    exact ⟨rfl, rfl, dictGet_dictInsert_self ..⟩
  · rw [Table.setName, if_pos hnm]
    exact ⟨rfl, rfl, dictGet_dictInsert_self ..⟩
  · rw [Column.setName, if_pos hcn]
    exact ⟨rfl, rfl, dictGet_dictInsert_self ..⟩
  · rw [Column.setStatTarget, if_pos hcs]
    exact ⟨rfl, rfl, dictGet_dictInsert_self ..⟩
  · rw [Column.setNullable, if_pos hcl]
    exact ⟨rfl, rfl, dictGet_dictInsert_self ..⟩

/-- C1 witness: the theorem instantiated on the sample table and column
with fresh values. -/
theorem set_updates_locally_without_remote_io_witness :
    (sampleTable.setTablespace "newts").1.tablespace = some "newts" ∧
    (sampleTable.setTablespace "newts").2 = [] ∧
    (sampleColumn.setName "renamed").2 = [] := by
  have h := set_updates_locally_without_remote_io sampleTable sampleColumn
    "newts" "newowner" "newschema" "newname" "renamed" true false 100
    (by decide) (by decide) (by decide) (by decide) (by decide)
    (by decide) (by decide) (by decide)
  exact ⟨h.1.1, h.1.2.1, h.2.2.2.2.2.1.2.1⟩

/-! ## C2 — setting the current value is a no-op -/

/-- C2: for every embedded entity and tracked attribute, setting the
attribute to its current in-memory value leaves the object (and in
particular the pending-change map) untouched and sends nothing. -/
theorem set_same_value_is_noop (t : Table) (c : Column) (vts vow : String)
    (hts : t.tablespace = some vts) (how : t.owner = some vow) :
    t.setTablespace vts = (t, []) ∧
    t.setRowSecurity t.row_security = (t, []) ∧
    t.setOwner vow = (t, []) ∧
    t.setSchema t.schema = (t, []) ∧
    t.setName t.name = (t, []) ∧
    c.setName c.name = (c, []) ∧
    c.setStatTarget c.stat_target = (c, []) ∧
    c.setNullable c.nullable = (c, []) := by
  refine ⟨?_, ?_, ?_, ?_, ?_, ?_, ?_, ?_⟩
  · rw [Table.setTablespace, if_neg (by simp [hts])]
  · rw [Table.setRowSecurity, if_neg (by simp)]
  · rw [Table.setOwner, if_neg (by simp [how])]
  · rw [Table.setSchema, if_neg (by simp)]
  · rw [Table.setName, if_neg (by simp)]
  · rw [Column.setName, if_neg (by simp)]
  · rw [Column.setStatTarget, if_neg (by simp)]
  · rw [Column.setNullable, if_neg (by simp)]

/-- C2 witness: the no-op on the sample table's current tablespace and
owner. -/
theorem set_same_value_is_noop_witness :
    sampleTable.setTablespace "pg_default" = (sampleTable, []) ∧
    sampleTable.setName sampleTable.name = (sampleTable, []) := by
  have h := set_same_value_is_noop sampleTable sampleColumn "pg_default"
    "pgmob1" (by decide) (by decide)
  exact ⟨h.1, h.2.2.2.2.1⟩

/-- Unfolds one effective tablespace set to its updated record. -/
theorem setTablespace_fst_of_ne (t : Table) (v : String)
    (h : t.tablespace ≠ some v) :
    (t.setTablespace v).1
      = { t with
            changes := dictInsert t.changes "tablespace" ⟨tablespaceStmt t v⟩,
            tablespace := some v } := by
  rw [Table.setTablespace, if_pos h]

/-- Unfolds one effective column rename to its updated record. -/
theorem columnSetName_fst_of_ne (c : Column) (v : String) (h : c.name ≠ v) :
    (c.setName v).1
      = { c with
            changes := dictInsert c.changes "name" ⟨columnRenameStmt c v⟩,
            name := v } := by
  rw [Column.setName, if_pos h]

/-! ## C3 — at most one pending change record per attribute -/

/-- C3: every setter preserves distinctness of the pending-change keys
(so an entity never holds two records for one attribute), and setting the
same attribute twice with two different values before reconciliation
leaves exactly one record for that attribute, whose statement reflects the
value set last. -/
theorem pending_change_unique_per_attribute
    (t : Table) (c : Column) (u vsc vnm cnm v1 v2 w1 w2 : String)
    (b : Bool) (z : Int)
    (hk : nodupKeys t.changes) (hck : nodupKeys c.changes)
    (h1 : t.tablespace ≠ some v1) (h12 : v1 ≠ v2)
    (hc1 : c.name ≠ w1) (hw12 : w1 ≠ w2) :
    (nodupKeys (t.setTablespace u).1.changes ∧
      nodupKeys (t.setRowSecurity b).1.changes ∧
      nodupKeys (t.setOwner u).1.changes ∧
      nodupKeys (t.setSchema vsc).1.changes ∧
      nodupKeys (t.setName vnm).1.changes ∧
      nodupKeys (c.setName cnm).1.changes ∧
      nodupKeys (c.setStatTarget z).1.changes ∧
      nodupKeys (c.setNullable b).1.changes) ∧
    (((t.setTablespace v1).1.setTablespace v2).1.changes.filter
        (fun p => p.1 = "tablespace")
      = [("tablespace", ⟨tablespaceStmt t v2⟩)]) ∧
    (((c.setName w1).1.setName w2).1.changes.filter (fun p => p.1 = "name")
      = [("name", ⟨columnRenameStmt c w2⟩)]) := by
  refine ⟨⟨?_, ?_, ?_, ?_, ?_, ?_, ?_, ?_⟩, ?_, ?_⟩
  · rw [Table.setTablespace]
    by_cases h : t.tablespace ≠ some u
    · rw [if_pos h]; exact dictInsert_nodupKeys _ _ _ hk
    · rw [if_neg h]; exact hk
  · rw [Table.setRowSecurity]
    by_cases h : t.row_security ≠ b
    · rw [if_pos h]; exact dictInsert_nodupKeys _ _ _ hk
    · rw [if_neg h]; exact hk
  · rw [Table.setOwner]
    by_cases h : t.owner ≠ some u
    · rw [if_pos h]; exact dictInsert_nodupKeys _ _ _ hk
    · rw [if_neg h]; exact hk
  · rw [Table.setSchema]
    by_cases h : t.schema ≠ vsc
    · rw [if_pos h]; exact dictInsert_nodupKeys _ _ _ hk
    · rw [if_neg h]; exact hk
  · rw [Table.setName]
    by_cases h : t.name ≠ vnm
    · rw [if_pos h]; exact dictInsert_nodupKeys _ _ _ hk
    · rw [if_neg h]; exact hk
  · rw [Column.setName]
    by_cases h : c.name ≠ cnm
    · rw [if_pos h]; exact dictInsert_nodupKeys _ _ _ hck
    · rw [if_neg h]; exact hck
  · rw [Column.setStatTarget]
    by_cases h : c.stat_target ≠ z
    · rw [if_pos h]; exact dictInsert_nodupKeys _ _ _ hck
    · rw [if_neg h]; exact hck
  · rw [Column.setNullable]
    by_cases h : c.nullable ≠ b
    · rw [if_pos h]; exact dictInsert_nodupKeys _ _ _ hck
    · rw [if_neg h]; exact hck
  · rw [setTablespace_fst_of_ne t v1 h1,
      setTablespace_fst_of_ne _ v2 (show some v1 ≠ some v2 by simpa using h12)]
    exact dictInsert_filter _ _ _ (dictInsert_nodupKeys _ _ _ hk)
  · rw [columnSetName_fst_of_ne c w1 hc1,
      columnSetName_fst_of_ne _ w2 (show w1 ≠ w2 from hw12)]
    exact dictInsert_filter _ _ _ (dictInsert_nodupKeys _ _ _ hck)

/-- C3 witness: the double-set scenario on the sample table and column. -/
theorem pending_change_unique_per_attribute_witness :
    ((sampleTable.setTablespace "x").1.setTablespace "y").1.changes.filter
        (fun p => p.1 = "tablespace")
      = [("tablespace", ⟨tablespaceStmt sampleTable "y"⟩)] :=
  (pending_change_unique_per_attribute sampleTable sampleColumn
    "u" "s" "n" "cn" "x" "y" "cx" "cy" true 7
    (by decide) (by decide) (by decide) (by decide) (by decide)
    (by decide)).2.1

/-! ## C4 — reverting to the original value does not cancel the change -/

/-- C4 counterexample: on a concrete table whose tablespace is
`pg_default`, setting the tablespace to `other` and then back to
`pg_default` before reconciliation leaves a pending change record for
`tablespace` — the revert does not cancel the pending change, because the
setter compares against the already-updated in-memory value. -/
theorem revert_leaves_pending_change_counterexample :
    ¬ (((sampleTable.setTablespace "other").1.setTablespace
        "pg_default").1.changes.filter (fun p => p.1 = "tablespace") = []) := by
  decide

/-- C4 amended: setting a tracked attribute to a new value and then back
to its original value before reconciliation does not cancel the pending
change; instead exactly one change record for the attribute remains, its
statement applying the original value, while the in-memory value is back
to the original. -/
theorem revert_records_change_for_original_value
    (t : Table) (c : Column) (v w u : String)
    (hk : nodupKeys t.changes) (hck : nodupKeys c.changes)
    (ht : t.tablespace = some w) (hvw : v ≠ w) (hu : u ≠ c.name) :
    (((t.setTablespace v).1.setTablespace w).1.tablespace = some w ∧
      ((t.setTablespace v).1.setTablespace w).1.changes.filter
          (fun p => p.1 = "tablespace")
        = [("tablespace", ⟨tablespaceStmt t w⟩)]) ∧
    (((c.setName u).1.setName c.name).1.name = c.name ∧
      ((c.setName u).1.setName c.name).1.changes.filter
          (fun p => p.1 = "name")
        = [("name", ⟨columnRenameStmt c c.name⟩)]) := by
  have h1 : t.tablespace ≠ some v := by
    rw [ht]
    simpa using fun hh => hvw hh.symm
  have hc1 : c.name ≠ u := fun hh => hu hh.symm
  constructor
  · rw [setTablespace_fst_of_ne t v h1,
      setTablespace_fst_of_ne _ w (show some v ≠ some w by simpa using hvw)]
    exact ⟨rfl, dictInsert_filter _ _ _ (dictInsert_nodupKeys _ _ _ hk)⟩
  · rw [columnSetName_fst_of_ne c u hc1,
      columnSetName_fst_of_ne _ c.name (show u ≠ c.name from hu)]
    exact ⟨rfl, dictInsert_filter _ _ _ (dictInsert_nodupKeys _ _ _ hck)⟩

/-- C4 amended witness: the revert scenario on the sample table and
column. -/
theorem revert_records_change_for_original_value_witness :
    ((sampleTable.setTablespace "other").1.setTablespace
        "pg_default").1.changes.filter (fun p => p.1 = "tablespace")
      = [("tablespace", ⟨tablespaceStmt sampleTable "pg_default"⟩)] :=
  (revert_records_change_for_original_value sampleTable sampleColumn
    "other" "pg_default" "c9" (by decide) (by decide) (by decide)
    (by decide) (by decide)).1.2

/-! ## C6 — refresh always clears pending changes -/

/-- Every value stored by a `dict` assignment satisfies a predicate that
held for all stored values and for the inserted one. -/
theorem dictInsert_forall_values {α : Type} (P : α → Prop)
    (m : List (String × α)) (k : String) (v : α)
    (hm : ∀ p ∈ m, P p.2) (hv : P v) :
    ∀ p ∈ dictInsert m k v, P p.2 := by
  intro p hp
  unfold dictInsert at hp
  by_cases hmem : m.any (fun q => q.1 = k) = true
  · rw [if_pos hmem] at hp
    rw [List.mem_map] at hp
    obtain ⟨q, hq, hfq⟩ := hp
    by_cases hqk : q.1 = k
    · rw [if_pos hqk] at hfq
      rw [← hfq]
      exact hv
    · rw [if_neg hqk] at hfq
      rw [← hfq]
      exact hm q hq
  · rw [if_neg hmem] at hp
    rcases List.mem_append.mp hp with h | h
    · exact hm p h
    · rw [List.mem_singleton] at h
      rw [h]
      exact hv

/-- All children built by a collection refresh satisfy a predicate that
holds of every freshly built child. -/
theorem foldl_dictInsert_values {α : Type} (P : α → Prop)
    (f : TableRow → α) (key : TableRow → String) (hf : ∀ r, P (f r)) :
    ∀ (rows : List TableRow) (acc : List (String × α)),
      (∀ p ∈ acc, P p.2) →
      ∀ p ∈ rows.foldl (fun a r => dictInsert a (key r) (f r)) acc, P p.2 := by
  intro rows
  induction rows with
  | nil => intro acc hacc p hp; exact hacc p hp
  | cons r rest ih =>
    intro acc hacc p hp
    exact ih _ (dictInsert_forall_values P acc (key r) (f r) hacc (hf r)) p hp

/-- C6: refresh clears the pending-change map on every completion path —
for a table and for a column, whether the entity is ephemeral (no query),
the remote row is found, or the query comes back empty (the clear happens
in `super().refresh()` before the query); and every child produced by a
collection refresh has an empty pending-change map. -/
theorem refresh_always_clears_pending_changes (t : Table) (c : Column)
    (remote : Option TableRow) (cr : Option ColumnRow) (rows : List TableRow)
    (p : String × Table)
    (hp : p ∈ (TableCollection.refreshFrom rows).tables) :
    (t.refresh remote).table.changes = [] ∧
    (c.refresh cr).column.changes = [] ∧
    p.2.changes = [] := by
  refine ⟨?_, ?_, ?_⟩
  · unfold Table.refresh
    cases remote with
    | none => by_cases h : t.oid.isNone <;> simp [h]
    | some row => by_cases h : t.oid.isNone <;> simp [h, tableMap]
  · unfold Column.refresh
    cases cr with
    | none =>
      by_cases h : Column.ephemeral { c with changes := [] } <;> simp [h]
    | some row =>
      by_cases h : Column.ephemeral { c with changes := [] }
      · simp [h]
      · simp only [h, Bool.false_eq_true, if_false]
        cases Identity.ofCode row.identity with
        | none => simp [columnMapBase]
        | some i =>
          cases GeneratedColumn.ofCode row.generated with
          | none => simp [columnMapBase]
          | some g => simp [columnMapBase]
  · exact foldl_dictInsert_values (fun tb => tb.changes = [])
      tableFromRow (fun r => tableIndex r.name r.schema)
      (fun r => rfl) rows [] (by intro q hq; cases hq) p hp

/-- C6 witness: the collection-refresh conjunct instantiated on the sample
row. -/
theorem refresh_always_clears_pending_changes_witness :
    ((sampleTable.setTablespace "x").1.refresh (some sampleRow)).table.changes
        = [] ∧
    ("pgmob1.tab1", tableFromRow sampleRow).2.changes = [] := by
  have h := refresh_always_clears_pending_changes
    (sampleTable.setTablespace "x").1 sampleColumn (some sampleRow) none
    [sampleRow] ("pgmob1.tab1", tableFromRow sampleRow) (by decide)
  exact ⟨h.1, h.2.2⟩

/-! ## C7 — NotFoundError exactly when the remote row is gone -/

/-- C7: a non-ephemeral entity's refresh sends exactly one catalog query
and raises the not-found error exactly when that query returns no row; an
ephemeral entity's refresh sends no query and raises nothing. -/
theorem refresh_notfound_iff_row_missing (t : Table) (c : Column)
    (remote : Option TableRow) (cr : Option ColumnRow) :
    ((t.refresh remote).error
        = if t.oid.isNone then none
          else if remote.isNone then some PgError.notFound else none) ∧
    ((t.refresh remote).sent
        = if t.oid.isNone then []
          else [catalogQuery "get_table" ++ [SQLTok.raw " WHERE c.oid = %s"]]) ∧
    (((c.refresh cr).error = some PgError.notFound)
        ↔ (c.number ≠ none ∧ cr = none)) ∧
    ((c.refresh cr).sent
        = if c.number.isNone then []
          else [catalogQuery "get_column" ++ [SQLTok.raw " AND a.attnum = %s"]]) := by
  refine ⟨?_, ?_, ?_, ?_⟩
  · unfold Table.refresh
    cases remote with
    | none => by_cases h : t.oid.isNone <;> simp [h]
    | some row => by_cases h : t.oid.isNone <;> simp [h]
  · unfold Table.refresh
    cases remote with
    | none => by_cases h : t.oid.isNone <;> simp [h]
    | some row => by_cases h : t.oid.isNone <;> simp [h]
  · by_cases h : c.number.isNone
    · simp only [Column.refresh, Column.ephemeral, h, if_true]
      constructor
      · intro hh
        cases hh
      · rintro ⟨hne, -⟩
        exact absurd (Option.isNone_iff_eq_none.mp h) hne
    · have hne : c.number ≠ none := fun hh => h (by rw [hh]; rfl)
      simp only [Column.refresh, Column.ephemeral, h, Bool.false_eq_true,
        if_false]
      cases cr with
      | none => simpa using hne
      | some row =>
        cases hi : Identity.ofCode row.identity with
        | none => simp [hi]
        | some i =>
          cases hg : GeneratedColumn.ofCode row.generated with
          | none => simp [hi, hg]
          | some g => simp [hi, hg]
  · by_cases h : c.number.isNone
    · simp [Column.refresh, Column.ephemeral, h]
    · simp only [Column.refresh, Column.ephemeral, h, Bool.false_eq_true,
        if_false]
      cases cr with
      | none => simp
      | some row =>
        cases hi : Identity.ofCode row.identity with
        | none => simp [hi]
        | some i =>
          cases hg : GeneratedColumn.ofCode row.generated with
          | none => simp [hi, hg]
          | some g => simp [hi, hg]

/-! ## C5 — alter executes statements in declared attribute order -/

/-- Unfolds one effective owner set to its updated record. -/
theorem setOwner_fst_of_ne (t : Table) (v : String) (h : t.owner ≠ some v) :
    (t.setOwner v).1
      = { t with
            changes := dictInsert t.changes "owner" ⟨ownerStmt t v⟩,
            owner := some v } := by
  rw [Table.setOwner, if_pos h]

/-- Unfolds one effective schema set to its updated record. -/
theorem setSchema_fst_of_ne (t : Table) (v : String) (h : t.schema ≠ v) :
    (t.setSchema v).1
      = { t with
            changes := dictInsert t.changes "schema" ⟨schemaStmt t v⟩,
            schema := v } := by
  rw [Table.setSchema, if_pos h]

/-- Unfolds one effective rename to its updated record. -/
theorem setName_fst_of_ne (t : Table) (v : String) (h : t.name ≠ v) :
    (t.setName v).1
      = { t with
            changes := dictInsert t.changes "name" ⟨renameStmt t v⟩,
            name := v } := by
  rw [Table.setName, if_pos h]

/-- C5: when name, owner and schema are set in that order on a table with
no pending changes, `alter` executes the owner statement first, then the
schema statement, and the rename last — the declared canonical attribute
order, not the order in which the attributes were set — and clears the
pending changes. -/
theorem alter_executes_in_declared_order (t : Table) (vnm vow vsc : String)
    (h0 : t.changes = []) (hnm : t.name ≠ vnm) (how : t.owner ≠ some vow)
    (hsc : t.schema ≠ vsc) :
    ((((t.setName vnm).1.setOwner vow).1.setSchema vsc).1.alter).2
        = [ownerStmt t vow, schemaStmt t vsc, renameStmt t vnm] ∧
    ((((t.setName vnm).1.setOwner vow).1.setSchema vsc).1.alter).1.changes
        = [] := by
  rw [setName_fst_of_ne t vnm hnm, setOwner_fst_of_ne _ vow (by exact how),
    setSchema_fst_of_ne _ vsc (by exact hsc), h0]
  constructor
  · simp [Table.alter, alterOrder, dictGet, dictInsert, ownerStmt,
      schemaStmt, renameStmt, Table.sqlFqn]
  · simp [Table.alter]

/-- C5 witness: the `test_alter` scenario on the sample table. -/
theorem alter_executes_in_declared_order_witness :
    ((((sampleTable.setName "bar").1.setOwner "foo").1.setSchema
        "zzz").1.alter).2
      = [ownerStmt sampleTable "foo", schemaStmt sampleTable "zzz",
          renameStmt sampleTable "bar"] :=
  (alter_executes_in_declared_order sampleTable "bar" "foo" "zzz"
    (by decide) (by decide) (by decide) (by decide)).1

/-! ## C8 — collection keys and default-schema elision -/

/-- A key assigned by a `dict` assignment is present afterwards. -/
theorem dictInsert_any_self {α : Type} (m : List (String × α)) (k : String)
    (v : α) : (dictInsert m k v).any (fun p => p.1 = k) = true := by
  unfold dictInsert
  by_cases hmem : m.any (fun p => p.1 = k) = true
  · rw [if_pos hmem]
    rw [List.any_eq_true] at hmem ⊢
    obtain ⟨q, hq, hqk⟩ := hmem
    refine ⟨(k, v), List.mem_map.mpr ⟨q, hq, ?_⟩, by simp⟩
    simp only [decide_eq_true_eq] at hqk
    rw [if_pos hqk]
  · rw [if_neg hmem]
    rw [List.any_eq_true]
    exact ⟨(k, v), List.mem_append.mpr (Or.inr (List.mem_singleton.mpr rfl)),
      by simp⟩

/-- A key present before a `dict` assignment is present afterwards. -/
theorem dictInsert_any_mono {α : Type} (m : List (String × α)) (k k' : String)
    (v : α) (h : m.any (fun p => p.1 = k') = true) :
    (dictInsert m k v).any (fun p => p.1 = k') = true := by
  unfold dictInsert
  by_cases hmem : m.any (fun p => p.1 = k) = true
  · rw [if_pos hmem]
    rw [List.any_eq_true] at h ⊢
    obtain ⟨q, hq, hqk⟩ := h
    simp only [decide_eq_true_eq] at hqk
    by_cases hqk2 : q.1 = k
    · refine ⟨(k, v), List.mem_map.mpr ⟨q, hq, by rw [if_pos hqk2]⟩, ?_⟩
      simp [← hqk2, hqk]
    · exact ⟨q, List.mem_map.mpr ⟨q, hq, by rw [if_neg hqk2]⟩, by simp [hqk]⟩
  · rw [if_neg hmem]
    rw [List.any_eq_true] at h ⊢
    obtain ⟨q, hq, hqk⟩ := h
    exact ⟨q, List.mem_append.mpr (Or.inl hq), hqk⟩

/-- Every row handed to a collection refresh ends up present under its
composed index key. -/
theorem refreshFrom_contains_index :
    ∀ (rows : List TableRow) (acc : List (String × Table)) (row : TableRow),
      row ∈ rows ∨ acc.any
          (fun p => p.1 = tableIndex row.name row.schema) = true →
      (rows.foldl
          (fun a r => dictInsert a (tableIndex r.name r.schema)
            (tableFromRow r)) acc).any
        (fun p => p.1 = tableIndex row.name row.schema) = true := by
  intro rows
  induction rows with
  | nil =>
    intro acc row h
    rcases h with h | h
    · cases h
    · exact h
  | cons r rest ih =>
    intro acc row h
    apply ih
    rcases h with h | h
    · rcases List.mem_cons.mp h with h | h
      · right
        rw [h]
        exact dictInsert_any_self ..
      · left
        exact h
    · right
      exact dictInsert_any_mono _ _ _ _ h

/-- C8: a table in the default schema `public` is indexed under its bare
name and one in any other schema under `schemaname.tablename`; and for a
bare name that does not itself start with `public.`, membership and
lookup with the qualified key `public.` ++ name coincide with membership
and lookup with the bare name, on every table collection. -/
theorem collection_key_default_schema_elision
    (rows : List TableRow) (row : TableRow) (c : TableCollection) (n : String)
    (hrow : row ∈ rows)
    (hn : stripPrefixChars "public.".data n.data = none) :
    ((TableCollection.refreshFrom rows).tables.any
        (fun p => p.1 = (if row.schema = "public" then row.name
          else row.schema ++ "." ++ row.name)) = true) ∧
    (c.containsKey ("public." ++ n) = c.containsKey n) ∧
    (c.getItem ("public." ++ n) = c.getItem n) := by
  have hnorm1 : normalizeKey ("public." ++ n) = n := by
    unfold normalizeKey
    have : stripPrefixChars "public.".data ("public." ++ n).data
        = some n.data := by
      rw [String.data_append]
      show stripPrefixChars
        ['p', 'u', 'b', 'l', 'i', 'c', '.'] (_ ++ n.data) = some n.data
      simp [stripPrefixChars]
    rw [this]
  have hnorm2 : normalizeKey n = n := by
    unfold normalizeKey
    rw [hn]
  refine ⟨?_, ?_, ?_⟩
  · have := refreshFrom_contains_index rows [] row (Or.inl hrow)
    unfold TableCollection.refreshFrom
    unfold tableIndex at this
    exact this
  · unfold TableCollection.containsKey
    rw [hnorm1, hnorm2]
  · unfold TableCollection.getItem
    rw [hnorm1, hnorm2]

/-- C8 witness: the sample row (schema `pgmob1`) is indexed under the
qualified key, and `public.`-elision on a concrete collection. -/
theorem collection_key_default_schema_elision_witness :
    ((TableCollection.refreshFrom [sampleRow]).tables.any
        (fun p => p.1 = (if sampleRow.schema = "public" then sampleRow.name
          else sampleRow.schema ++ "." ++ sampleRow.name)) = true) ∧
    ((TableCollection.refreshFrom [sampleRow]).containsKey "public.tab1"
      = (TableCollection.refreshFrom [sampleRow]).containsKey "tab1") := by
  have h := collection_key_default_schema_elision [sampleRow] sampleRow
    (TableCollection.refreshFrom [sampleRow]) "tab1"
    (List.mem_singleton.mpr rfl) (by decide)
  exact ⟨h.1, h.2.1⟩

/-! ## C9 — get_sql version selection -/

/-- C9 counterexample: with variants `q_9.sql` and `q_10.sql` present and
server major version 10, the highest qualifying suffix is 10, but
`get_sql` returns `q_9.sql` — the files are sorted lexicographically, so
`q_9.sql` follows `q_10.sql` and wins the last-qualifying walk. -/
theorem get_sql_not_highest_qualifying_counterexample :
    parseSqlSuffix "q" "q_10.sql" = some 10 ∧
    parseSqlSuffix "q" "q_9.sql" = some 9 ∧
    get_sql "q" (some 10) ["q_9.sql", "q_10.sql"] = "q_9.sql" ∧
    ¬ get_sql "q" (some 10) ["q_9.sql", "q_10.sql"] = "q_10.sql" := by
  decide

/-- The `get_sql` loop keeps the last file that qualified. -/
theorem foldl_keep_last_qualifying (P : String → Bool) :
    ∀ (l : List String) (d : String),
      l.foldl (fun acc f => if P f then f else acc) d
        = ((l.filter P).getLast?).getD d := by
  intro l
  induction l with
  | nil => intro d; rfl
  | cons x xs ih =>
    intro d
    rw [List.foldl_cons]
    by_cases h : P x = true
    · rw [if_pos h, ih x, List.filter_cons_of_pos h]
      cases hfx : xs.filter P with
      | nil => simp [hfx]
      | cons y ys =>
        rw [List.getLast?_cons_cons]
        cases hz : (y :: ys).getLast? with
        | none => exact absurd (List.getLast?_eq_none_iff.mp hz) (by simp)
        | some z => rfl
    · rw [if_neg h, ih d, List.filter_cons_of_neg (by simpa using h)]

/-- In a sorted list, the last element is an upper bound. -/
theorem sorted_getLast_max :
    ∀ (l : List String), l.Sorted strLe →
      ∀ x ∈ l, ∀ y, l.getLast? = some y → strLe x y := by
  intro l
  induction l with
  | nil => intro _ x hx; cases hx
  | cons a rest ih =>
    intro hs x hx y hy
    cases rest with
    | nil =>
      rw [List.mem_singleton] at hx
      rw [List.getLast?_singleton, Option.some.injEq] at hy
      rw [hx, ← hy]
      exact lexLe_refl _
    | cons b bs =>
      rw [List.getLast?_cons_cons] at hy
      rcases List.mem_cons.mp hx with hxa | hxr
      · have hmem : y ∈ b :: bs := List.mem_of_mem_getLast? hy
        rw [hxa]
        exact (List.sorted_cons.mp hs).1 y hmem
      · exact ih (List.sorted_cons.mp hs).2 x hxr y hy

/-- C9 amended: with no version `get_sql` returns the unsuffixed default;
with a version it returns the default when no globbed variant has a
qualifying suffix (one `<=` the server major), and otherwise the
qualifying variant whose file name is lexicographically greatest — which
is the variant with the highest qualifying numeric suffix whenever the
suffixes have equally many digits, but not in general. -/
theorem get_sql_selects_lex_last_qualifying (name : String) (major : Nat)
    (files : List String) :
    (get_sql name none files = name ++ ".sql") ∧
    ((files.filter (globMatch name)).all
        (fun f => !(qualifies name major f)) = true →
      get_sql name (some major) files = name ++ ".sql") ∧
    (∀ f0 ∈ files, globMatch name f0 = true →
      qualifies name major f0 = true →
      ∃ f ∈ files, globMatch name f = true ∧ qualifies name major f = true ∧
        get_sql name (some major) files = f ∧
        ∀ g ∈ files, globMatch name g = true →
          qualifies name major g = true → strLe g f) := by
  haveI : IsTotal String strLe := ⟨fun a b => lexLe_total a.data b.data⟩
  haveI : IsTrans String strLe := ⟨fun _ _ _ h₁ h₂ => lexLe_trans h₁ h₂⟩
  set l := (files.filter (globMatch name)).insertionSort strLe with hl
  have hperm : ∀ g : String, g ∈ l ↔ g ∈ files.filter (globMatch name) :=
    fun g => (List.perm_insertionSort strLe _).mem_iff
  have heq : get_sql name (some major) files
      = ((l.filter (qualifies name major)).getLast?).getD (name ++ ".sql") := by
    rw [get_sql]
    exact foldl_keep_last_qualifying (qualifies name major) l (name ++ ".sql")
  refine ⟨rfl, ?_, ?_⟩
  · intro hall
    have : l.filter (qualifies name major) = [] := by
      rw [List.filter_eq_nil_iff]
      intro g hg
      have := (List.all_eq_true.mp hall) g ((hperm g).mp hg)
      simp only [Bool.not_eq_eq_eq_not, Bool.not_true] at this
      simp [this]
    rw [heq, this]
    rfl
  · intro f0 hf0 hglob hqual
    have hf0l : f0 ∈ l.filter (qualifies name major) :=
      List.mem_filter.mpr ⟨(hperm f0).mpr (List.mem_filter.mpr
        ⟨hf0, hglob⟩), hqual⟩
    have hne : l.filter (qualifies name major) ≠ [] := by
      intro hnil
      rw [hnil] at hf0l
      cases hf0l
    obtain ⟨y, hy⟩ := Option.ne_none_iff_exists'.mp
      (mt List.getLast?_eq_none_iff.mp hne)
    have hyl : y ∈ l.filter (qualifies name major) :=
      List.mem_of_mem_getLast? hy
    have hymem := List.mem_filter.mp hyl
    have hyfiles := List.mem_filter.mp ((hperm y).mp hymem.1)
    refine ⟨y, hyfiles.1, hyfiles.2, hymem.2, ?_, ?_⟩
    · rw [heq, hy]
      rfl
    · intro g hg hgglob hgqual
      have hsorted : (l.filter (qualifies name major)).Sorted strLe :=
        List.Pairwise.sublist (List.filter_sublist _)
          (List.sorted_insertionSort strLe _)
      have hgl : g ∈ l.filter (qualifies name major) :=
        List.mem_filter.mpr ⟨(hperm g).mpr (List.mem_filter.mpr
          ⟨hg, hgglob⟩), hgqual⟩
      exact sorted_getLast_max _ hsorted g hgl y hy

/-- C9 amended witness: with only the `q_11.sql` variant present and
server major 12, the qualifying variant selected is `q_11.sql`. -/
theorem get_sql_selects_lex_last_qualifying_witness :
    ∃ f ∈ ["q_11.sql", "q.sql"], globMatch "q" f = true ∧
      qualifies "q" 12 f = true ∧
      get_sql "q" (some 12) ["q_11.sql", "q.sql"] = f ∧
      ∀ g ∈ ["q_11.sql", "q.sql"], globMatch "q" g = true →
        qualifies "q" 12 g = true → strLe g f :=
  (get_sql_selects_lex_last_qualifying "q" 12 ["q_11.sql", "q.sql"]).2.2
    "q_11.sql" (by decide) (by decide) (by decide)

/-! ## C10 — Version construction -/

/-- C10 counterexample: `Version(" 1.2")` is constructed successfully
although its first dot-separated component contains a non-digit character
(both `int()` and the PEP 440 parse tolerate surrounding whitespace). -/
theorem version_whitespace_component_counterexample :
    Version_new (.pstr " 1.2") = .ok [1, 2] ∧
    (splitDot " 1.2".data).all (fun c => c.all Char.isDigit) = false := by
  decide

/-- The six whitespace characters are neither digits nor dots. -/
theorem isPySpace_not_digit_dot (ch : Char) (h : isPySpace ch = true) :
    ch.isDigit = false ∧ (ch = '.' → False) := by
  simp only [isPySpace, Bool.or_eq_true, decide_eq_true_eq] at h
  rcases h with (((((h | h) | h) | h) | h) | h) <;> subst h <;>
    exact ⟨by decide, by decide⟩

/-- A digit character is not an underscore, a sign, a dot or
whitespace. -/
theorem digit_not_special (ch : Char) (h : ch.isDigit = true) :
    ch ≠ '_' ∧ ch ≠ '+' ∧ ch ≠ '-' ∧ ch ≠ '.' ∧ isPySpace ch = false := by
  refine ⟨?_, ?_, ?_, ?_, ?_⟩
  · intro heq; rw [heq] at h; exact absurd h (by decide)
  · intro heq; rw [heq] at h; exact absurd h (by decide)
  · intro heq; rw [heq] at h; exact absurd h (by decide)
  · intro heq; rw [heq] at h; exact absurd h (by decide)
  · cases hsp : isPySpace ch with
    | false => rfl
    | true =>
      rw [(isPySpace_not_digit_dot ch hsp).1] at h
      cases h

/-- Dropping a leading-whitespace prefix of a whitespace-free list is the
identity. -/
theorem dropWhile_eq_self_of_all_not {p : Char → Bool} :
    ∀ (l : List Char), l.all (fun ch => !(p ch)) = true →
      l.dropWhile p = l := by
  intro l h
  cases l with
  | nil => rfl
  | cons c rest =>
    rw [List.all_cons, Bool.and_eq_true] at h
    have hc : p c = false := by
      have h1 := h.1
      rwa [Bool.not_eq_true'] at h1
    exact List.dropWhile_cons_of_neg (by rw [hc]; exact Bool.false_ne_true)

/-- Stripping whitespace from a whitespace-free list is the identity. -/
theorem pyStrip_eq_self (l : List Char)
    (h : l.all (fun ch => !(isPySpace ch)) = true) : pyStrip l = l := by
  unfold pyStrip
  rw [dropWhile_eq_self_of_all_not l h,
    dropWhile_eq_self_of_all_not l.reverse (by simpa using h),
    List.reverse_reverse]

/-- splitDot never returns the empty list of components. -/
theorem splitDot_ne_nil : ∀ (l : List Char), splitDot l ≠ [] := by
  intro l
  cases l with
  | nil => simp [splitDot]
  | cons c rest =>
    simp only [splitDot]
    cases splitDot rest with
    | nil => simp
    | cons g gs =>
      by_cases h : c = '.' <;> simp [h]

/-- A dot-free list splits into itself. -/
theorem splitDot_no_dot : ∀ (c : List Char),
    (∀ ch ∈ c, ch ≠ '.') → splitDot c = [c] := by
  intro c
  induction c with
  | nil => intro _; rfl
  | cons ch rest ih =>
    intro h
    show (match splitDot rest with
        | [] => [[]]
        | g :: gs => if ch = '.' then [] :: g :: gs else (ch :: g) :: gs)
      = [ch :: rest]
    rw [ih (fun x hx => h x (List.mem_cons_of_mem ch hx))]
    show (if ch = '.' then [] :: rest :: [] else (ch :: rest) :: [])
      = [ch :: rest]
    rw [if_neg (h ch (List.mem_cons_self ch rest))]

/-- Splitting a dot-free component followed by a dot peels the
component. -/
theorem splitDot_append_dot : ∀ (c m : List Char),
    (∀ ch ∈ c, ch ≠ '.') →
    splitDot (c ++ '.' :: m) = c :: splitDot m := by
  intro c
  induction c with
  | nil =>
    intro m _
    simp only [List.nil_append, splitDot]
    cases hm : splitDot m with
    | nil => exact absurd hm (splitDot_ne_nil m)
    | cons g gs => simp
  | cons ch rest ih =>
    intro m h
    show (match splitDot (rest ++ '.' :: m) with
        | [] => [[]]
        | g :: gs => if ch = '.' then [] :: g :: gs else (ch :: g) :: gs)
      = (ch :: rest) :: splitDot m
    rw [ih m (fun x hx => h x (List.mem_cons_of_mem ch hx))]
    show (if ch = '.' then [] :: rest :: splitDot m
        else (ch :: rest) :: splitDot m)
      = (ch :: rest) :: splitDot m
    rw [if_neg (h ch (List.mem_cons_self ch rest))]

/-- Joining nonempty dot-free components and splitting again is the
identity. -/
theorem splitDot_joinDots : ∀ (comps : List (List Char)),
    comps ≠ [] → (∀ c ∈ comps, ∀ ch ∈ c, ch ≠ '.') →
    splitDot (joinDots comps) = comps := by
  intro comps
  induction comps with
  | nil => intro h; exact absurd rfl h
  | cons c rest ih =>
    intro _ h
    cases rest with
    | nil =>
      show splitDot (joinDots [c]) = [c]
      rw [joinDots]
      exact splitDot_no_dot c (h c (List.mem_cons_self c []))
    | cons c2 rest2 =>
      show splitDot (c ++ '.' :: joinDots (c2 :: rest2)) = c :: c2 :: rest2
      rw [splitDot_append_dot c _ (h c (List.mem_cons_self c _))]
      rw [ih (by simp) (fun x hx => h x (List.mem_cons_of_mem c hx))]

/-- Every character of a join of digit components is a digit or a dot. -/
theorem joinDots_chars : ∀ (comps : List (List Char)),
    (∀ c ∈ comps, c.all Char.isDigit = true) →
    ∀ ch ∈ joinDots comps, ch.isDigit = true ∨ ch = '.' := by
  intro comps
  induction comps with
  | nil => intro _ ch hch; cases hch
  | cons c rest ih =>
    intro h ch hch
    cases rest with
    | nil =>
      rw [joinDots] at hch
      exact Or.inl (List.all_eq_true.mp (h c (List.mem_cons_self c [])) ch hch)
    | cons c2 rest2 =>
      rw [show joinDots (c :: c2 :: rest2)
          = c ++ '.' :: joinDots (c2 :: rest2) from rfl] at hch
      rcases List.mem_append.mp hch with hc | hc
      · exact Or.inl (List.all_eq_true.mp (h c (List.mem_cons_self c _)) ch hc)
      · rcases List.mem_cons.mp hc with hdot | hrest
        · exact Or.inr hdot
        · exact ih (fun x hx => h x (List.mem_cons_of_mem c hx)) ch hrest

/-- A nonempty pure digit run passes Python's `int()`. -/
theorem pyIntOk_of_digits (c : List Char) (hne : c ≠ [])
    (hd : c.all Char.isDigit = true) : pyIntOk c = true := by
  have hstrip : pyStrip c = c := by
    apply pyStrip_eq_self
    rw [List.all_eq_true] at hd ⊢
    intro ch hch
    simp [(digit_not_special ch (hd ch hch)).2.2.2.2]
  have hrest : ∀ (m : List Char), m.all Char.isDigit = true →
      pyDigitsRest m = true := by
    intro m
    induction m with
    | nil => intro _; rfl
    | cons ch rest ihm =>
      intro hm
      rw [List.all_cons, Bool.and_eq_true] at hm
      cases rest with
      | nil =>
        show (if ch = '_' then false
            else ch.isDigit && pyDigitsRest []) = true
        rw [if_neg (digit_not_special ch hm.1).1, hm.1]
        rfl
      | cons c2 rest' =>
        show (if ch = '_' then c2.isDigit && pyDigitsRest rest'
            else ch.isDigit && pyDigitsRest (c2 :: rest')) = true
        rw [if_neg (digit_not_special ch hm.1).1, hm.1, ihm hm.2]
        rfl
  cases c with
  | nil => exact absurd rfl hne
  | cons ch rest =>
    rw [List.all_cons, Bool.and_eq_true] at hd
    have hns := digit_not_special ch hd.1
    have hsign : (decide (ch = '+') || decide (ch = '-')) = false := by
      simp [hns.2.1, hns.2.2.1]
    simp only [pyIntOk, hstrip, hsign, Bool.false_eq_true, if_false,
      hd.1, hrest rest hd.2, Bool.and_self]

/-- Dropping leading zeros of a zero block prepended to a list reaches
the list. -/
theorem dropWhile_replicate_zero (k : Nat) (x : List Nat) :
    (List.replicate k 0 ++ x).dropWhile (· = 0) = x.dropWhile (· = 0) := by
  induction k with
  | zero => rfl
  | succ n ih =>
    rw [List.replicate_succ, List.cons_append,
      List.dropWhile_cons_of_pos (by simp)]
    exact ih

/-- C10 amended: `Version(arg)` raises for a non-string argument and
whenever the argument does not strip (of surrounding whitespace) to
nonempty digit runs separated by single dots — in particular the empty
string and components with letters, signs, underscores or interior
whitespace all raise; it succeeds on every string of dot-separated
nonempty digit runs, yielding the release tuple (surrounding whitespace
is additionally tolerated, per the counterexample); and trailing zero
components are dropped by comparison, so missing trailing components
compare as zero. -/
theorem version_new_validation (s : String) (comps : List (List Char))
    (v : List Nat) (k : Nat)
    (hbad : (splitDot (pyStrip s.data)).all
        (fun c => !c.isEmpty && c.all Char.isDigit) = false)
    (hne : comps ≠ [])
    (hcomps : ∀ c ∈ comps, c ≠ [] ∧ c.all Char.isDigit = true) :
    Version_new .nonStr = .error () ∧
    Version_new (.pstr "") = .error () ∧
    Version_new (.pstr s) = .error () ∧
    Version_new (.pstr (String.mk (joinDots comps)))
        = .ok (comps.map digitsToNat) ∧
    versionEq (v ++ List.replicate k 0) v = true := by
  refine ⟨rfl, by decide, ?_, ?_, ?_⟩
  · simp only [Version_new]
    by_cases hgate : (splitDot s.data).all pyIntOk = true
    · rw [if_pos hgate]
      simp only [pep440Release, hbad, Bool.false_eq_true, if_false]
    · rw [if_neg hgate]
  · have hdotfree : ∀ c ∈ comps, ∀ ch ∈ c, ch ≠ '.' := by
      intro c hc ch hch
      exact (digit_not_special ch
        (List.all_eq_true.mp (hcomps c hc).2 ch hch)).2.2.2.1
    have hsplit : splitDot (joinDots comps) = comps :=
      splitDot_joinDots comps hne hdotfree
    have hstrip : pyStrip (joinDots comps) = joinDots comps := by
      apply pyStrip_eq_self
      rw [List.all_eq_true]
      intro ch hch
      rcases joinDots_chars comps (fun c hc => (hcomps c hc).2) ch hch with
        hdig | hdot
      · simp [(digit_not_special ch hdig).2.2.2.2]
      · subst hdot
        decide
    have hgate : (splitDot (joinDots comps)).all pyIntOk = true := by
      rw [hsplit, List.all_eq_true]
      intro c hc
      exact pyIntOk_of_digits c (hcomps c hc).1 (hcomps c hc).2
    have hgood : (splitDot (pyStrip (joinDots comps))).all
        (fun c => !c.isEmpty && c.all Char.isDigit) = true := by
      rw [hstrip, hsplit, List.all_eq_true]
      intro c hc
      rw [Bool.and_eq_true]
      refine ⟨?_, (hcomps c hc).2⟩
      cases hc2 : c with
      | nil => exact absurd hc2 (hcomps c hc).1
      | cons a as => simp
    have hdata : (String.mk (joinDots comps)).data = joinDots comps := rfl
    simp only [Version_new, hdata, pep440Release, hstrip, hsplit]
    rw [hsplit] at hgate
    rw [hstrip, hsplit] at hgood
    rw [if_pos hgate, if_pos hgood]
  · unfold versionEq releaseCanon
    rw [List.reverse_append, List.reverse_replicate,
      dropWhile_replicate_zero]
    simp

/-- C10 amended witness: the theorem instantiated on `"1x"` (raises) and
components `1`, `20` (succeeds with release `[1, 20]`). -/
theorem version_new_validation_witness :
    Version_new (.pstr "1x") = .error () ∧
    Version_new (.pstr (String.mk (joinDots [['1'], ['2', '0']])))
      = .ok [1, 20] := by
  have h := version_new_validation "1x" [['1'], ['2', '0']] [1, 2] 2
    (by decide) (by decide) (by decide)
  exact ⟨h.2.2.1, h.2.2.2.1⟩

end Pgmob
